import Mathlib

/-!
Verification of the medical-calendar scheduling engine.

Shallow embedding of the core calendar code:
* `src/src/features/calendar/components/CalendarTimeline.tsx` (`generateTimeSlots`,
  both the timeline and the grid copy, which are textually identical on the
  fields the claims mention),
* `src/src/utils/dateHelpers.ts` / `appointmentHelpers` (`calculateAppointmentTop`,
  `appointmentsOverlap`, `detectOverlappingAppointments`, `calculateAppointmentOffset`),
* `src/src/features/calendar/utils/dndHelpers.ts` (`calculateNewTime`),
* `src/unnamed/part_011` (`useCalendarDrag.handleDragEnd`, resize and move branches),
* `src/src/hooks/useWorkingHours.ts` (`validateWorkingHours`, `loadWorkingHours`,
  `setWorkingHours`),
* `src/src/constants/calendar.ts` (the numeric constants).

Modelling conventions:
* JS `Date` values are modelled as `Int` minutes since an epoch that falls at a
  midnight; a calendar day is 1440 minutes.  `getHours`/`getMinutes`/`setHours`/
  `setMinutes`/`addMinutes` below are the date-fns operations at this (minute)
  granularity, operating on the local wall-clock day of the value.
* JS floating point numbers that carry pixel and fractional-minute values are
  modelled as `ℚ`; `Math.round` is `⌊x + 1/2⌋` (ties toward +∞), `Math.max` is `max`.
* Appointment `id` is an opaque unique identifier with a total order
  (`a.id.localeCompare(b.id)` ties are modelled by `≤` on `Nat`).
* `Array.prototype.sort` with a comparator is a stable sort; it is modelled by
  `List.insertionSort` (stable) on the relation `comparator(a,b) ≤ 0`.
* `Map` is modelled as an association list: `Map.set` overwrites in place or
  appends (`jsMapSet`), `Map.get` finds the first (unique) matching key
  (`jsMapGet`).
* `Appointment` keeps only the fields the claims mention (`id`, `startTime`,
  `endTime`, `duration`); the object spreads `{...apt, ...}` in the source copy
  the remaining fields unchanged, so they are irrelevant to every claim here.
-/

/-- Minutes in a day; JS Dates are modelled at minute granularity. -/
def MINUTES_PER_DAY : Int := 1440

/-- Constant from `src/src/constants/calendar.ts`. -/
def MINUTES_IN_HOUR : Int := 60

/-- Constant from `src/src/constants/calendar.ts` (`MIN_HOUR = 0`). -/
def MIN_HOUR : Int := 0

/-- Constant from `src/src/constants/calendar.ts` (`MAX_HOUR = 24`). -/
def MAX_HOUR : Int := 24

/-- Constant from `src/src/constants/calendar.ts` (`MIN_WORKING_HOURS_RANGE = 1`). -/
def MIN_WORKING_HOURS_RANGE : Int := 1

/-- Constant from `src/src/constants/calendar.ts` (`DEFAULT_START_HOUR = 8`). -/
def DEFAULT_START_HOUR : Int := 8

/-- Constant from `src/src/constants/calendar.ts` (`DEFAULT_END_HOUR = 18`). -/
def DEFAULT_END_HOUR : Int := 18

/-- Midnight of the local day containing time `t` (minutes granularity). -/
def dayStart (t : Int) : Int := t - t % MINUTES_PER_DAY

/-- JS `Date.prototype.getHours` at minute granularity. -/
def getHours (t : Int) : Int := t % MINUTES_PER_DAY / 60

/-- JS `Date.prototype.getMinutes` at minute granularity. -/
def getMinutes (t : Int) : Int := t % MINUTES_PER_DAY % 60

/-- date-fns `setHours(t, h)`: replace the hour, keep the minute (and the day). -/
def setHours (t h : Int) : Int := dayStart t + h * 60 + getMinutes t

/-- date-fns `setMinutes(t, m)`: replace the minute, keep the hour (and the day). -/
def setMinutes (t m : Int) : Int := dayStart t + getHours t * 60 + m

/-- date-fns `addMinutes(t, k)`. -/
def addMinutes (t k : Int) : Int := t + k

/-- JS `Math.round` on the rationals that model JS numbers: `⌊x + 1/2⌋`. -/
def jsRound (x : ℚ) : Int := Int.floor (x + 1/2)

/-- TimeSlot value object produced by `generateTimeSlots`
(`CalendarTimeline.tsx`); the display `label` string is omitted (the grid copy
of `generateTimeSlots` has no label either). -/
structure TimeSlot where
  hour : Nat
  minute : Nat
  isHourStart : Bool
deriving DecidableEq, Repr

/-- Inner loop of `generateTimeSlots` (`CalendarTimeline.tsx` lines 98-134 and
456-488): for a fixed `hour`, iterate `slotIndex` over `[0, slotsPerHour)`
with `minute = slotIndex * interval`, and `break` at the `endHour` as soon as
`minute > 0` (only the boundary marker slot is emitted for `endHour`). -/
def slotRow (hour endHour interval : Nat) : List TimeSlot :=
  ((List.range (60 / interval)).takeWhile
      (fun slotIndex => !(hour == endHour && decide (slotIndex * interval > 0)))).map
    (fun slotIndex =>
      { hour := hour, minute := slotIndex * interval,
        isHourStart := slotIndex * interval == 0 })

/-- `generateTimeSlots(startHour, endHour, interval)` from
`CalendarTimeline.tsx`: the outer loop runs `hour` from `startHour` to
`endHour` inclusive (no iterations when `startHour > endHour`). -/
def generateTimeSlots (startHour endHour interval : Nat) : List TimeSlot :=
  (((List.range (endHour + 1 - startHour)).map (fun k => startHour + k)).map
      (fun hour => slotRow hour endHour interval)).flatten

/-- Appointment record (`src/src/types/appointment.ts`), restricted to the
fields the scheduling engine reads or writes: times are minutes, `duration`
is the stored duration field in minutes. -/
structure Appointment where
  id : Nat
  startTime : Int
  endTime : Int
  duration : Int
deriving DecidableEq, Repr

/-- `calculateAppointmentTop(startTime, slotHeightPx, slotInterval)` from
`appointmentHelpers`: minutes from midnight divided by the interval, scaled by
the slot height (a JS float, modelled as `ℚ`). -/
def calculateAppointmentTop (startTime : Int) (slotHeightPx : ℚ) (slotInterval : Int) : ℚ :=
  let hours := getHours startTime
  let minutes := getMinutes startTime
  let totalMinutes := hours * MINUTES_IN_HOUR + minutes
  let slotsFromMidnight : ℚ := (totalMinutes : ℚ) / (slotInterval : ℚ)
  slotsFromMidnight * slotHeightPx

/-- `appointmentsOverlap(a1, a2)` from `appointmentHelpers`:
`a1.startTime < a2.endTime && a1.endTime > a2.startTime`. -/
def appointmentsOverlap (appointment1 appointment2 : Appointment) : Bool :=
  decide (appointment1.startTime < appointment2.endTime) &&
    decide (appointment1.endTime > appointment2.startTime)

/-- Comparator `(a, b) => a.startTime.getTime() - b.startTime.getTime()` used to
sort a day's appointments: ascending start time. -/
def startLe (a b : Appointment) : Prop := a.startTime ≤ b.startTime

instance : DecidableRel startLe :=
  fun a b => inferInstanceAs (Decidable (a.startTime ≤ b.startTime))

/-- The stable JS sort by start time inside `detectOverlappingAppointments`. -/
def sortByStart (appointments : List Appointment) : List Appointment :=
  List.insertionSort startLe appointments

/-- Body of the outer `forEach` of `detectOverlappingAppointments`: the group of
the appointment at position `index` is itself followed by every OTHER position
(`index !== otherIndex`) whose appointment overlaps it, in sorted order. -/
def overlappingFor (sorted : List Appointment) (index : Nat) (appointment : Appointment) :
    List Appointment :=
  appointment ::
    ((sorted.enum.filter
        (fun other => decide (other.1 ≠ index) && appointmentsOverlap appointment other.2)).map
      Prod.snd)

/-- JS `Map.prototype.set` on an association list: overwrite in place if the
key is present, else append. -/
def jsMapSet (m : List (Nat × List Appointment)) (k : Nat) (v : List Appointment) :
    List (Nat × List Appointment) :=
  if m.any (fun p => p.1 == k) then
    m.map (fun p => if p.1 == k then (k, v) else p)
  else
    m ++ [(k, v)]

/-- JS `Map.prototype.get` on an association list. -/
def jsMapGet (m : List (Nat × List Appointment)) (k : Nat) : Option (List Appointment) :=
  (m.find? (fun p => p.1 == k)).map Prod.snd

/-- `detectOverlappingAppointments(appointments)` from `appointmentHelpers`:
sort by start time, then map each appointment's id to its overlap group. -/
def detectOverlappingAppointments (appointments : List Appointment) :
    List (Nat × List Appointment) :=
  let sortedAppointments := sortByStart appointments
  sortedAppointments.enum.foldl
    (fun overlappingGroups p =>
      jsMapSet overlappingGroups p.2.id (overlappingFor sortedAppointments p.1 p.2))
    []

/-- Comparator of `calculateAppointmentOffset`'s inner sort: start time
ascending, ties broken by id order (`localeCompare`). -/
def groupOrder (a b : Appointment) : Prop :=
  a.startTime < b.startTime ∨ (a.startTime = b.startTime ∧ a.id ≤ b.id)

instance : DecidableRel groupOrder :=
  fun a b =>
    inferInstanceAs (Decidable (a.startTime < b.startTime ∨
      (a.startTime = b.startTime ∧ a.id ≤ b.id)))

/-- `calculateAppointmentOffset(appointmentId, overlappingGroups)` from
`appointmentHelpers`.  JS `findIndex` returns `-1` on a miss and the source
maps that to `0` (`offsetIndex >= 0 ? offsetIndex : 0`); `List.findIdx`
returns the length on a miss, so the same guard is written as a bounds check. -/
def calculateAppointmentOffset (appointmentId : Nat)
    (overlappingGroups : List (Nat × List Appointment)) : Nat × Nat :=
  let group := (jsMapGet overlappingGroups appointmentId).getD []
  let sortedGroup := List.insertionSort groupOrder group
  let fi := sortedGroup.findIdx (fun apt => apt.id == appointmentId)
  (if fi < sortedGroup.length then fi else 0, sortedGroup.length)

/-- `widthPercentage` from `AppointmentCard` (`CalendarColumn.tsx`):
`totalOverlapping > 1 ? 100 / totalOverlapping : 100`. -/
def widthPercentage (totalOverlapping : Nat) : ℚ :=
  if totalOverlapping > 1 then 100 / (totalOverlapping : ℚ) else 100

/-- `leftPercentage` from `AppointmentCard` (`CalendarColumn.tsx`):
`totalOverlapping > 1 ? (offsetIndex * 100) / totalOverlapping : 0`. -/
def leftPercentage (offsetIndex totalOverlapping : Nat) : ℚ :=
  if totalOverlapping > 1 then ((offsetIndex : ℚ) * 100) / (totalOverlapping : ℚ) else 0

/-- `calculateNewTime({yOffset, slotHeightPx, stepMinutes, startHour, baseDate})`
from `dndHelpers.ts`: clamp the offset to `≥ 0`, round to a whole number of
slots, convert to minutes, and add them to `startHour:00` of the base date. -/
def calculateNewTime (yOffset slotHeightPx : ℚ) (stepMinutes startHour baseDate : Int) : Int :=
  let safeOffset := max 0 yOffset
  let slotsFromTop := jsRound (safeOffset / slotHeightPx)
  let totalMinutesAdded := slotsFromTop * stepMinutes
  let newDate := setMinutes (setHours baseDate startHour) 0
  addMinutes newDate totalMinutesAdded

/-- Resize branch of `handleDragEnd`'s `setAppointments` updater
(`src/unnamed/part_011`).  `actualId` is the active id with the `resize-`
prefix already stripped.  Note the hard-coded numbers in the source:
`pixelsPerMinute = slotHeightPx / 30` ("Assuming 30m base"), snap
`Math.round(minutesChanged / 15) * 15`, and floor `Math.max(15, ...)`. -/
def handleResizeUpdate (slotHeightPx deltaY : ℚ) (actualId : Nat)
    (prev : List Appointment) : List Appointment :=
  match prev.find? (fun apt => apt.id == actualId) with
  | none => prev
  | some appointment =>
    let pixelsPerMinute := slotHeightPx / 30
    let minutesChanged := deltaY / pixelsPerMinute
    let snappedMinutes := jsRound (minutesChanged / 15) * 15
    let newDuration := max 15 (appointment.duration + snappedMinutes)
    let newEndTime := addMinutes appointment.startTime newDuration
    if newDuration == appointment.duration then prev
    else
      prev.map (fun apt =>
        if apt.id == actualId then
          { apt with duration := newDuration, endTime := newEndTime }
        else apt)

/-- Move branch of `handleDragEnd`'s `setAppointments` updater
(`src/unnamed/part_011`); reached only with a valid drop target, whose column
date is `overDate`.  Uses hard-coded `slotInterval = 30`, `stepMinutes = 30`
and `startHour = MIN_HOUR`. -/
def handleMoveUpdate (slotHeightPx deltaY : ℚ) (activeId : Nat) (overDate : Int)
    (prev : List Appointment) : List Appointment :=
  match prev.find? (fun apt => apt.id == activeId) with
  | none => prev
  | some appointment =>
    let originalTop := calculateAppointmentTop appointment.startTime slotHeightPx 30
    let newTop := originalTop + deltaY
    let newStartTime := calculateNewTime newTop slotHeightPx 30 MIN_HOUR overDate
    let newEndTime := addMinutes newStartTime appointment.duration
    prev.map (fun apt =>
      if apt.id == activeId then
        { apt with startTime := newStartTime, endTime := newEndTime }
      else apt)

/-- WorkingHours record (`src/src/hooks/useWorkingHours.ts`). -/
structure WorkingHours where
  startHour : Int
  endHour : Int
deriving DecidableEq, Repr

/-- `validateWorkingHours(startHour, endHour)` from `useWorkingHours.ts`.  The
`typeof` checks are handled at the call sites (`loadWorkingHours` passes
`Option Int` fields; the setter receives a typed record). -/
def validateWorkingHours (startHour endHour : Int) : Bool :=
  decide (startHour ≥ MIN_HOUR) && decide (startHour < MAX_HOUR) &&
    decide (endHour > MIN_HOUR) && decide (endHour ≤ MAX_HOUR) &&
    decide (endHour - startHour ≥ MIN_WORKING_HOURS_RANGE)

/-- Possible states of `localStorage.getItem('calendar-working-hours')` as seen
by `loadWorkingHours`: key absent, `JSON.parse` throwing, a parsed non-object,
or an object whose two fields are each present-with-`typeof number` (`some`)
or missing/malformed (`none`). -/
inductive StoredWorkingHours where
  | absent : StoredWorkingHours
  | unparseable : StoredWorkingHours
  | nonObject : StoredWorkingHours
  | object (startHour endHour : Option Int) : StoredWorkingHours

/-- `loadWorkingHours()` from `useWorkingHours.ts`: validate the stored record
and fall back to the defaults `{startHour: 8, endHour: 18}` in every other
case. -/
def loadWorkingHours (stored : StoredWorkingHours) : WorkingHours :=
  match stored with
  | .object (some s) (some e) =>
    if validateWorkingHours s e then { startHour := s, endHour := e }
    else { startHour := DEFAULT_START_HOUR, endHour := DEFAULT_END_HOUR }
  | _ => { startHour := DEFAULT_START_HOUR, endHour := DEFAULT_END_HOUR }

/-- `setWorkingHours(hours)` from `useWorkingHours.ts`: keep the previous state
and report a diagnostic (`console.error`, the returned flag) when validation
fails, otherwise adopt the new value. -/
def setWorkingHours (state hours : WorkingHours) : WorkingHours × Bool :=
  if validateWorkingHours hours.startHour hours.endHour then (hours, false)
  else (state, true)

/-- WorkingHours invariant from the data model: `0 ≤ startHour < endHour ≤ 24`
with `endHour - startHour ≥ 1`. -/
def workingHoursInvariant (w : WorkingHours) : Prop :=
  0 ≤ w.startHour ∧ w.startHour < w.endHour ∧ w.endHour ≤ 24 ∧ 1 ≤ w.endHour - w.startHour

/-! ### Time lattice lemmas (claim C2) -/

/-- Strict (hour, minute) lexicographic order on time slots. -/
def slotLt (a b : TimeSlot) : Prop :=
  a.hour < b.hour ∨ (a.hour = b.hour ∧ a.minute < b.minute)

/-- One full hour row of the lattice (no `break` taken). -/
def fullRow (hour interval : Nat) : List TimeSlot :=
  (List.range (60 / interval)).map
    (fun slotIndex =>
      { hour := hour, minute := slotIndex * interval,
        isHourStart := slotIndex * interval == 0 })

lemma takeWhile_all {α : Type} (p : α → Bool) :
    ∀ l : List α, (∀ x ∈ l, p x = true) → l.takeWhile p = l := by
  intro l
  induction l with
  | nil => intro _; rfl
  | cons a t ih =>
    intro h
    rw [List.takeWhile_cons, h a (List.mem_cons_self a t), if_pos rfl,
      ih (fun x hx => h x (List.mem_cons_of_mem a hx))]

lemma takeWhile_none {α : Type} (p : α → Bool) :
    ∀ l : List α, (∀ x ∈ l, p x = false) → l.takeWhile p = [] := by
  intro l
  cases l with
  | nil => intro _; rfl
  | cons a t =>
    intro h
    rw [List.takeWhile_cons, h a (List.mem_cons_self a t)]
    simp

lemma slotRow_of_ne (hour endHour interval : Nat) (h : hour ≠ endHour) :
    slotRow hour endHour interval = fullRow hour interval := by
  unfold slotRow fullRow
  rw [takeWhile_all]
  intro x _
  simp [Nat.ne_of_beq_eq_false, h]

lemma slotRow_self (endHour interval : Nat) (hpos : 0 < interval)
    (hle : interval ≤ 60) :
    slotRow endHour endHour interval = [⟨endHour, 0, true⟩] := by
  have hq : 0 < 60 / interval := Nat.div_pos hle hpos
  obtain ⟨m, hm⟩ : ∃ m, 60 / interval = m + 1 := ⟨60 / interval - 1, by omega⟩
  unfold slotRow
  rw [hm, List.range_succ_eq_map, List.takeWhile_cons, if_pos (by simp),
    takeWhile_none]
  · simp
  · intro x hx
    rcases List.mem_map.mp hx with ⟨k, _, rfl⟩
    have hk : 0 < Nat.succ k * interval := Nat.mul_pos (Nat.succ_pos k) hpos
    simp [hk]

lemma interval_pos_le (interval : Nat)
    (hi : interval = 15 ∨ interval = 30 ∨ interval = 60) :
    0 < interval ∧ interval ≤ 60 ∧ interval ∣ 60 := by
  rcases hi with rfl | rfl | rfl <;> exact ⟨by norm_num, by norm_num, by norm_num⟩

lemma generateTimeSlots_self (s interval : Nat)
    (hi : interval = 15 ∨ interval = 30 ∨ interval = 60) :
    generateTimeSlots s s interval = [⟨s, 0, true⟩] := by
  obtain ⟨hpos, hle, -⟩ := interval_pos_le interval hi
  unfold generateTimeSlots
  have h1 : s + 1 - s = 1 := by omega
  rw [h1]
  simp [List.range_succ, slotRow_self s interval hpos hle]

lemma generateTimeSlots_cons (s e interval : Nat) (h : s < e) :
    generateTimeSlots s e interval =
      fullRow s interval ++ generateTimeSlots (s + 1) e interval := by
  unfold generateTimeSlots
  have h1 : e + 1 - s = (e - s) + 1 := by omega
  have h2 : e + 1 - (s + 1) = e - s := by omega
  rw [h1, h2, List.range_succ_eq_map]
  simp only [List.map_cons, List.map_map, List.flatten_cons, Nat.add_zero]
  rw [slotRow_of_ne s e interval (by omega)]
  congr 2
  apply List.map_congr_left
  intro k _
  simp only [Function.comp]
  congr 1
  omega

lemma length_fullRow (hour interval : Nat) :
    (fullRow hour interval).length = 60 / interval := by
  simp [fullRow]

lemma length_generateTimeSlots (interval : Nat)
    (hi : interval = 15 ∨ interval = 30 ∨ interval = 60) :
    ∀ (n s e : Nat), e = s + n → (generateTimeSlots s e interval).length =
      n * (60 / interval) + 1 := by
  intro n
  induction n with
  | zero =>
    intro s e he
    rw [he, Nat.add_zero, generateTimeSlots_self s interval hi]
    simp
  | succ n ih =>
    intro s e he
    rw [generateTimeSlots_cons s e interval (by omega)]
    rw [List.length_append, length_fullRow, ih (s + 1) e (by omega)]
    ring

lemma mem_fullRow (hour interval : Nat) (x : TimeSlot) :
    x ∈ fullRow hour interval ↔
      ∃ k, k < 60 / interval ∧ x = ⟨hour, k * interval, k * interval == 0⟩ := by
  simp only [fullRow, List.mem_map, List.mem_range]
  constructor
  · rintro ⟨k, hk, rfl⟩; exact ⟨k, hk, rfl⟩
  · rintro ⟨k, hk, rfl⟩; exact ⟨k, hk, rfl⟩

lemma mem_generateTimeSlots (interval : Nat)
    (hi : interval = 15 ∨ interval = 30 ∨ interval = 60) :
    ∀ (n s e : Nat), e = s + n → ∀ x : TimeSlot,
      (x ∈ generateTimeSlots s e interval ↔
        ((∃ hr k, s ≤ hr ∧ hr < e ∧ k < 60 / interval ∧
            x = ⟨hr, k * interval, k * interval == 0⟩) ∨ x = ⟨e, 0, true⟩)) := by
  intro n
  induction n with
  | zero =>
    intro s e he x
    rw [he, Nat.add_zero, generateTimeSlots_self s interval hi]
    simp only [List.mem_singleton]
    constructor
    · intro h; exact Or.inr h
    · rintro (⟨hr, k, h1, h2, -, -⟩ | h)
      · omega
      · exact h
  | succ n ih =>
    intro s e he x
    rw [generateTimeSlots_cons s e interval (by omega),
      List.mem_append, mem_fullRow, ih (s + 1) e (by omega) x]
    constructor
    · rintro (⟨k, hk, rfl⟩ | ⟨hr, k, h1, h2, hk, rfl⟩ | rfl)
      · exact Or.inl ⟨s, k, le_refl s, by omega, hk, rfl⟩
      · exact Or.inl ⟨hr, k, by omega, by omega, hk, rfl⟩
      · exact Or.inr rfl
    · rintro (⟨hr, k, h1, h2, hk, rfl⟩ | rfl)
      · rcases Nat.eq_or_lt_of_le h1 with rfl | hlt
        · exact Or.inl ⟨k, hk, rfl⟩
        · exact Or.inr (Or.inl ⟨hr, k, by omega, by omega, hk, rfl⟩)
      · exact Or.inr (Or.inr rfl)

lemma pairwise_generateTimeSlots (interval : Nat)
    (hi : interval = 15 ∨ interval = 30 ∨ interval = 60) :
    ∀ (n s e : Nat), e = s + n →
      List.Pairwise slotLt (generateTimeSlots s e interval) := by
  obtain ⟨hpos, -, -⟩ := interval_pos_le interval hi
  intro n
  induction n with
  | zero =>
    intro s e he
    rw [he, Nat.add_zero, generateTimeSlots_self s interval hi]
    simp
  | succ n ih =>
    intro s e he
    rw [generateTimeSlots_cons s e interval (by omega)]
    rw [List.pairwise_append]
    refine ⟨?_, ih (s + 1) e (by omega), ?_⟩
    · unfold fullRow
      rw [List.pairwise_map]
      exact (List.pairwise_lt_range (60 / interval)).imp
        (fun hlt => Or.inr ⟨rfl, (Nat.mul_lt_mul_right hpos).mpr hlt⟩)
    · intro x hx y hy
      rcases (mem_fullRow s interval x).mp hx with ⟨k, -, rfl⟩
      rcases (mem_generateTimeSlots interval hi n (s + 1) e (by omega) y).mp hy with
        ⟨hr, k', h1, -, -, rfl⟩ | rfl
      · exact Or.inl (show s < hr by omega)
      · exact Or.inl (show s < e by omega)

lemma getLast_generateTimeSlots (interval : Nat)
    (hi : interval = 15 ∨ interval = 30 ∨ interval = 60) :
    ∀ (n s e : Nat), e = s + n →
      (generateTimeSlots s e interval).getLast? = some ⟨e, 0, true⟩ := by
  intro n
  induction n with
  | zero =>
    intro s e he
    rw [he, Nat.add_zero, generateTimeSlots_self s interval hi]
    rfl
  | succ n ih =>
    intro s e he
    rw [generateTimeSlots_cons s e interval (by omega),
      List.getLast?_append, ih (s + 1) e (by omega)]
    rfl

/-- C2: for every valid configuration (`startHour ≤ endHour`,
`interval ∈ {15, 30, 60}`) the slot generator returns exactly
`(endHour − startHour) × (60/interval) + 1` slots: for each hour
`h ∈ [startHour, endHour)` every minute offset `0, interval, …` below 60, in
strictly increasing `(hour, minute)` order, followed by a single boundary slot
at `endHour:00` and nothing beyond it; `generateSlots(8, 18, 30)` returns 21
slots, first `{8,0}`, last two `{17,30}` then `{18,0}`; and
`startHour == endHour` yields a single boundary slot. -/
theorem generateTimeSlots_lattice_c2 (s e interval : Nat) (hse : s ≤ e)
    (hi : interval = 15 ∨ interval = 30 ∨ interval = 60) :
    (generateTimeSlots s e interval).length = (e - s) * (60 / interval) + 1 ∧
    List.Pairwise slotLt (generateTimeSlots s e interval) ∧
    (generateTimeSlots s e interval).getLast? = some ⟨e, 0, true⟩ ∧
    (∀ x ∈ generateTimeSlots s e interval,
        (s ≤ x.hour ∧ x.hour < e ∧ x.minute < 60 ∧ interval ∣ x.minute ∧
          x.isHourStart = (x.minute == 0)) ∨ x = ⟨e, 0, true⟩) ∧
    (∀ h m : Nat, s ≤ h → h < e → m < 60 → interval ∣ m →
        TimeSlot.mk h m (m == 0) ∈ generateTimeSlots s e interval) ∧
    generateTimeSlots s s interval = [⟨s, 0, true⟩] ∧
    (generateTimeSlots 8 18 30).length = 21 ∧
    (generateTimeSlots 8 18 30).head? = some ⟨8, 0, true⟩ ∧
    (generateTimeSlots 8 18 30).drop 19 = [⟨17, 30, false⟩, ⟨18, 0, true⟩] := by
  obtain ⟨hpos, -, hdvd⟩ := interval_pos_le interval hi
  have he : e = s + (e - s) := by omega
  refine ⟨?_, ?_, ?_, ?_, ?_, generateTimeSlots_self s interval hi,
    by decide, by decide, by decide⟩
  · exact length_generateTimeSlots interval hi (e - s) s e he
  · exact pairwise_generateTimeSlots interval hi (e - s) s e he
  · exact getLast_generateTimeSlots interval hi (e - s) s e he
  · intro x hx
    rcases (mem_generateTimeSlots interval hi (e - s) s e he x).mp hx with
      ⟨hr, k, h1, h2, hk, rfl⟩ | rfl
    · refine Or.inl ⟨h1, h2, ?_, ⟨k, Nat.mul_comm k interval⟩, rfl⟩
      calc k * interval < (60 / interval) * interval :=
            (Nat.mul_lt_mul_right hpos).mpr hk
        _ ≤ 60 := Nat.div_mul_le_self 60 interval
    · exact Or.inr rfl
  · intro hr m h1 h2 h3 h4
    apply (mem_generateTimeSlots interval hi (e - s) s e he _).mpr
    refine Or.inl ⟨hr, m / interval, h1, by omega,
      Nat.div_lt_div_of_lt_of_dvd hdvd h3, ?_⟩
    rw [Nat.div_mul_cancel h4]

/-- C2 witness: the theorem applied at the concrete configuration (8, 18, 30). -/
theorem generateTimeSlots_lattice_c2_witness :
    (8 : Nat) ≤ 18 ∧ ((30 : Nat) = 15 ∨ (30 : Nat) = 30 ∨ (30 : Nat) = 60) ∧
    (generateTimeSlots 8 18 30).length = (18 - 8) * (60 / 30) + 1 :=
  ⟨by decide, by decide,
    (generateTimeSlots_lattice_c2 8 18 30 (by decide) (by decide)).1⟩

/-! ### Geometry mapper lemmas (claims C4, C10) -/

lemma emod_day_nonneg (t : Int) : 0 ≤ t % MINUTES_PER_DAY := by
  unfold MINUTES_PER_DAY; omega

lemma emod_day_lt (t : Int) : t % MINUTES_PER_DAY < 1440 := by
  unfold MINUTES_PER_DAY; omega

lemma dayStart_add_emod (t : Int) : dayStart t + t % MINUTES_PER_DAY = t := by
  unfold dayStart; ring

lemma dayStart_dayStart (t : Int) : dayStart (dayStart t) = dayStart t := by
  unfold dayStart MINUTES_PER_DAY; omega

lemma dvd_dayStart (t : Int) : (1440 : Int) ∣ dayStart t := by
  unfold dayStart MINUTES_PER_DAY
  exact Dvd.intro (t / 1440) (by omega)

lemma totalMinutes_eq (t : Int) :
    getHours t * MINUTES_IN_HOUR + getMinutes t = t % MINUTES_PER_DAY := by
  unfold getHours getMinutes MINUTES_IN_HOUR MINUTES_PER_DAY; omega

lemma newDate_eq (baseDate : Int) :
    setMinutes (setHours baseDate MIN_HOUR) 0 = dayStart baseDate := by
  unfold setMinutes setHours getHours getMinutes dayStart MIN_HOUR MINUTES_PER_DAY
  omega

lemma calculateAppointmentTop_eq (t : Int) (h : ℚ) (i : Int) :
    calculateAppointmentTop t h i = ((t % MINUTES_PER_DAY : Int) : ℚ) / (i : ℚ) * h := by
  unfold calculateAppointmentTop
  rw [← totalMinutes_eq t]

lemma calculateNewTime_eq (y h : ℚ) (step baseDate : Int) :
    calculateNewTime y h step MIN_HOUR baseDate =
      dayStart baseDate + jsRound (max 0 y / h) * step := by
  unfold calculateNewTime addMinutes
  rw [newDate_eq]

lemma jsRound_le (q : ℚ) : (jsRound q : ℚ) ≤ q + 1/2 := Int.floor_le _

lemma lt_jsRound (q : ℚ) : q - 1/2 < (jsRound q : ℚ) := by
  have := Int.lt_floor_add_one (q + 1/2)
  unfold jsRound
  linarith

lemma jsRound_intCast (z : Int) : jsRound (z : ℚ) = z := by
  unfold jsRound
  rw [Int.floor_int_add]
  have h0 : ⌊(1 / 2 : ℚ)⌋ = 0 := Int.floor_eq_iff.mpr ⟨by norm_num, by norm_num⟩
  omega

lemma jsRound_nonneg (q : ℚ) (h : 0 ≤ q) : 0 ≤ jsRound q := by
  unfold jsRound
  rw [Int.floor_nonneg]
  linarith

/-- C4: composing the forward geometry map with its inverse,
`calculateNewTime(calculateAppointmentTop(t, h, i), h, i, startHour := 0,
baseDate := dateOf t)` lands within one slot interval of `t` (the round trip
snaps `t`'s minutes-from-midnight to the nearest multiple of `i`, never
drifting by a full slot). -/
theorem geometry_roundtrip_c4 (t : Int) (h : ℚ) (i : Int) (hh : 0 < h)
    (hi : i = 15 ∨ i = 30 ∨ i = 60) :
    |calculateNewTime (calculateAppointmentTop t h i) h i MIN_HOUR (dayStart t) - t| ≤ i := by
  have hipos : (0 : Int) < i := by rcases hi with rfl | rfl | rfl <;> norm_num
  have hiq : (0 : ℚ) < (i : ℚ) := by exact_mod_cast hipos
  have hm0 : 0 ≤ t % MINUTES_PER_DAY := emod_day_nonneg t
  set m : Int := t % MINUTES_PER_DAY with hm
  have hq0 : (0 : ℚ) ≤ (m : ℚ) / (i : ℚ) := by positivity
  have htop : calculateAppointmentTop t h i = (m : ℚ) / (i : ℚ) * h :=
    calculateAppointmentTop_eq t h i
  have hmax : max 0 ((m : ℚ) / (i : ℚ) * h) = (m : ℚ) / (i : ℚ) * h :=
    max_eq_right (by positivity)
  have hdiv : (m : ℚ) / (i : ℚ) * h / h = (m : ℚ) / (i : ℚ) :=
    mul_div_cancel_right₀ _ (ne_of_gt hh)
  set k : Int := jsRound ((m : ℚ) / (i : ℚ)) with hk
  have hres : calculateNewTime (calculateAppointmentTop t h i) h i MIN_HOUR (dayStart t)
      = dayStart t + k * i := by
    rw [htop, calculateNewTime_eq, hmax, hdiv, dayStart_dayStart]
  have hkle : (k : ℚ) ≤ (m : ℚ) / (i : ℚ) + 1/2 := jsRound_le _
  have hkgt : (m : ℚ) / (i : ℚ) - 1/2 < (k : ℚ) := lt_jsRound _
  have h1 : (k : ℚ) * i ≤ ((m : ℚ) / (i : ℚ) + 1/2) * i :=
    mul_le_mul_of_nonneg_right hkle (le_of_lt hiq)
  have h2 : ((m : ℚ) / (i : ℚ) + 1/2) * i = (m : ℚ) + (i : ℚ) / 2 := by
    field_simp
    ring
  have h3 : ((m : ℚ) / (i : ℚ) - 1/2) * i < (k : ℚ) * i :=
    mul_lt_mul_of_pos_right hkgt hiq
  have h4 : ((m : ℚ) / (i : ℚ) - 1/2) * i = (m : ℚ) - (i : ℚ) / 2 := by
    field_simp
    ring
  have habs : |(k : ℚ) * i - (m : ℚ)| ≤ (i : ℚ) := by
    rw [abs_le]
    constructor <;> [linarith; linarith]
  have hsub : calculateNewTime (calculateAppointmentTop t h i) h i MIN_HOUR (dayStart t) - t
      = k * i - m := by
    rw [hres, hm]
    have := dayStart_add_emod t
    omega
  rw [hsub]
  exact_mod_cast habs

/-- C4 witness: the round trip at `t = 557` (9:17), slot height 60, interval 30
drifts by 13 minutes, within one slot. -/
theorem geometry_roundtrip_c4_witness :
    (0 : ℚ) < 60 ∧ ((30 : Int) = 15 ∨ (30 : Int) = 30 ∨ (30 : Int) = 60) ∧
    |calculateNewTime (calculateAppointmentTop 557 60 30) 60 30 MIN_HOUR (dayStart 557)
      - 557| ≤ 30 :=
  ⟨by norm_num, by norm_num,
    geometry_roundtrip_c4 557 60 30 (by norm_num) (by norm_num)⟩

/-! ### Drag/resize interpreter (claims C1, C3, C7, C10) -/

lemma jsRound_eq_of (q : ℚ) (z : Int) (h1 : (z : ℚ) ≤ q + 1/2)
    (h2 : q + 1/2 < (z : ℚ) + 1) : jsRound q = z := by
  unfold jsRound
  exact Int.floor_eq_iff.mpr ⟨h1, h2⟩

/-- C1 counterexample: with appointment duration 30, slot height 60 px and
configured interval 30, a resize drag of `dy = 40` px commits duration 45
(the code snaps to a hard-coded 15-minute grid), while the claimed formula
`round((dy / pixelsPerMinute) / intervalMinutes) × intervalMinutes` with
`intervalMinutes = 30` yields `minutesChanged = 30` and `newDuration = 60`. -/
theorem resize_snap_c1_counterexample :
    handleResizeUpdate 60 40 1 [⟨1, 540, 570, 30⟩] = [⟨1, 540, 585, 45⟩] ∧
    max 15 ((30 : Int) + jsRound ((40 : ℚ) / ((60 : ℚ) / 30) / 30) * 30) = 60 ∧
    (45 : Int) ≠ 60 := by
  have hcode : jsRound ((40 : ℚ) / ((60 : ℚ) / 30) / 15) = 1 :=
    jsRound_eq_of _ _ (by norm_num) (by norm_num)
  have hclaim : jsRound ((40 : ℚ) / ((60 : ℚ) / 30) / 30) = 1 :=
    jsRound_eq_of _ _ (by norm_num) (by norm_num)
  refine ⟨?_, by rw [hclaim]; norm_num, by norm_num⟩
  unfold handleResizeUpdate
  rw [show ([⟨1, 540, 570, 30⟩] : List Appointment).find? (fun apt => apt.id == 1) =
    some ⟨1, 540, 570, 30⟩ from rfl]
  simp only [hcode, addMinutes]
  norm_num

/-- C1 (amended): for every resize of a found appointment with cumulative
vertical delta `dy`, the interpreter computes
`minutesChanged = round((dy / (slotHeightPx / 30)) / 15) × 15` — i.e. pixels
are converted at a hard-coded 30-minute slot base and snapped to a hard-coded
15-minute grid, not to the configured interval — and commits
`newDuration = max(15, originalDuration + minutesChanged)` with
`newEndTime = startTime + newDuration`, skipping the write when the duration
is unchanged. -/
theorem resize_snap_c1_amended (h dy : ℚ) (actualId : Nat)
    (prev : List Appointment) (apt : Appointment)
    (hfind : prev.find? (fun x => x.id == actualId) = some apt) :
    (max 15 (apt.duration + jsRound (dy / (h / 30) / 15) * 15) = apt.duration →
      handleResizeUpdate h dy actualId prev = prev) ∧
    (max 15 (apt.duration + jsRound (dy / (h / 30) / 15) * 15) ≠ apt.duration →
      handleResizeUpdate h dy actualId prev =
        prev.map (fun x =>
          if x.id == actualId then
            { x with
              duration := max 15 (apt.duration + jsRound (dy / (h / 30) / 15) * 15),
              endTime := apt.startTime +
                max 15 (apt.duration + jsRound (dy / (h / 30) / 15) * 15) }
          else x)) := by
  unfold handleResizeUpdate
  rw [hfind]
  constructor
  · intro hEq
    simp only [addMinutes, hEq, beq_self_eq_true, if_pos]
  · intro hNe
    simp only [addMinutes, beq_iff_eq, if_neg hNe]

/-- C1 witness: the amended theorem applied at slot height 60, `dy = 40`,
duration 30: the snapped change is +15 and the committed duration is 45. -/
theorem resize_snap_c1_witness :
    ([⟨1, 540, 570, 30⟩] : List Appointment).find? (fun x => x.id == 1) =
        some ⟨1, 540, 570, 30⟩ ∧
    handleResizeUpdate 60 40 1 [⟨1, 540, 570, 30⟩] = [⟨1, 540, 585, 45⟩] := by
  have hcode : jsRound ((40 : ℚ) / ((60 : ℚ) / 30) / 15) = 1 :=
    jsRound_eq_of _ _ (by norm_num) (by norm_num)
  have happly := (resize_snap_c1_amended 60 40 1 [⟨1, 540, 570, 30⟩]
    ⟨1, 540, 570, 30⟩ rfl).2
  rw [hcode] at happly
  refine ⟨rfl, ?_⟩
  rw [happly (by norm_num)]
  norm_num

/-- C3: a committed move with vertical delta `dy` onto the column with date
`overDate` rewrites the dragged appointment's start to
`calculateNewTime(calculateAppointmentTop(startTime) + dy, baseDate := overDate)`,
sets `endTime = newStartTime + duration`, preserves the `duration` field, and
leaves every other appointment unchanged. -/
theorem move_commit_c3 (h dy : ℚ) (activeId : Nat) (overDate : Int)
    (prev : List Appointment) (apt : Appointment)
    (hfind : prev.find? (fun x => x.id == activeId) = some apt)
    (huniq : ∀ b ∈ prev, b.id = activeId → b = apt) :
    handleMoveUpdate h dy activeId overDate prev =
      prev.map (fun x =>
        if x.id == activeId then
          { x with
            startTime := calculateNewTime
              (calculateAppointmentTop apt.startTime h 30 + dy) h 30 MIN_HOUR overDate,
            endTime := calculateNewTime
              (calculateAppointmentTop apt.startTime h 30 + dy) h 30 MIN_HOUR overDate
              + apt.duration }
        else x) ∧
    (∀ b ∈ handleMoveUpdate h dy activeId overDate prev, b.id = activeId →
      b.startTime = calculateNewTime
          (calculateAppointmentTop apt.startTime h 30 + dy) h 30 MIN_HOUR overDate ∧
      b.endTime = b.startTime + apt.duration ∧
      b.duration = apt.duration) ∧
    (∀ b ∈ handleMoveUpdate h dy activeId overDate prev, b.id ≠ activeId → b ∈ prev) := by
  have hmain : handleMoveUpdate h dy activeId overDate prev =
      prev.map (fun x =>
        if x.id == activeId then
          { x with
            startTime := calculateNewTime
              (calculateAppointmentTop apt.startTime h 30 + dy) h 30 MIN_HOUR overDate,
            endTime := calculateNewTime
              (calculateAppointmentTop apt.startTime h 30 + dy) h 30 MIN_HOUR overDate
              + apt.duration }
        else x) := by
    unfold handleMoveUpdate
    rw [hfind]
    rfl
  refine ⟨hmain, ?_, ?_⟩
  · intro b hb hid
    rw [hmain] at hb
    rcases List.mem_map.mp hb with ⟨x, hx, rfl⟩
    by_cases hxid : (x.id == activeId) = true
    · rw [if_pos hxid]
      have hxa : x = apt := huniq x hx (by simpa using hxid)
      exact ⟨rfl, rfl, by rw [hxa]⟩
    · rw [if_neg hxid] at hid ⊢
      exact absurd hid (by simpa using hxid)
  · intro b hb hid
    rw [hmain] at hb
    rcases List.mem_map.mp hb with ⟨x, hx, rfl⟩
    by_cases hxid : (x.id == activeId) = true
    · rw [if_pos hxid] at hid
      exact absurd (by simpa using hxid) hid
    · rw [if_neg hxid]
      exact hx

/-- C3 witness: moving the appointment `[Mon 14:00, Mon 14:45)` (times 840,
885 on day 0) onto the Tuesday column (day start 1440) with `dy = 120` px at
60 px per 30-minute slot commits start Tue 15:00 (2340) and end Tue 15:45
(2385), duration unchanged. -/
theorem move_commit_c3_witness :
    ([⟨1, 840, 885, 45⟩] : List Appointment).find? (fun x => x.id == 1) =
        some ⟨1, 840, 885, 45⟩ ∧
    handleMoveUpdate 60 120 1 1440 [⟨1, 840, 885, 45⟩] = [⟨1, 2340, 2385, 45⟩] := by
  have happly := (move_commit_c3 60 120 1 1440 [⟨1, 840, 885, 45⟩] ⟨1, 840, 885, 45⟩
    rfl (by decide)).1
  have htop : calculateAppointmentTop 840 60 30 = 1680 := by
    rw [calculateAppointmentTop_eq]
    norm_num [MINUTES_PER_DAY]
  have hround : jsRound ((1800 : ℚ) / 60) = 30 :=
    jsRound_eq_of _ _ (by norm_num) (by norm_num)
  have hS : calculateNewTime (calculateAppointmentTop 840 60 30 + 120) 60 30 MIN_HOUR 1440
      = 2340 := by
    rw [htop, calculateNewTime_eq]
    rw [show max (0 : ℚ) (1680 + 120) = 1800 by norm_num]
    rw [hround]
    decide
  refine ⟨rfl, ?_⟩
  rw [happly, hS]
  norm_num

/-- C7 counterexample: a move with `dy = 0` onto the appointment's own day is
NOT a no-op when the start time is off the 30-minute grid: the appointment at
9:17 (minute 557 of day 0) is snapped to 9:30 (570), so the store changes. -/
theorem move_noop_c7_counterexample :
    handleMoveUpdate 60 0 1 0 [⟨1, 557, 587, 30⟩] = [⟨1, 570, 600, 30⟩] ∧
    ([⟨1, 570, 600, 30⟩] : List Appointment) ≠ [⟨1, 557, 587, 30⟩] := by
  have htop : calculateAppointmentTop 557 60 30 = 1114 := by
    rw [calculateAppointmentTop_eq]
    norm_num [MINUTES_PER_DAY]
  have hround : jsRound ((1114 : ℚ) / 60) = 19 :=
    jsRound_eq_of _ _ (by norm_num) (by norm_num)
  have hS : calculateNewTime (calculateAppointmentTop 557 60 30 + 0) 60 30 MIN_HOUR 0
      = 570 := by
    rw [htop, calculateNewTime_eq]
    rw [show max (0 : ℚ) (1114 + 0) = 1114 by norm_num]
    rw [hround]
    decide
  constructor
  · unfold handleMoveUpdate
    rw [show ([⟨1, 557, 587, 30⟩] : List Appointment).find? (fun apt => apt.id == 1) =
      some ⟨1, 557, 587, 30⟩ from rfl]
    simp only [addMinutes, hS]
    norm_num
  · simp

/-- C7 (amended): a committed move with `dy = 0` onto the appointment's own
day leaves the store value unchanged, provided the appointment's start time
lies on the 30-minute grid (and its record satisfies the
`endTime = startTime + duration` invariant); an off-grid start time is snapped
and does produce a store write. -/
theorem move_noop_c7_amended (h : ℚ) (activeId : Nat) (overDate : Int)
    (prev : List Appointment) (apt : Appointment) (hh : 0 < h)
    (hfind : prev.find? (fun x => x.id == activeId) = some apt)
    (huniq : ∀ b ∈ prev, b.id = activeId → b = apt)
    (hconsistent : apt.endTime = apt.startTime + apt.duration)
    (hday : dayStart apt.startTime = dayStart overDate)
    (haligned : (30 : Int) ∣ apt.startTime % MINUTES_PER_DAY) :
    handleMoveUpdate h 0 activeId overDate prev = prev := by
  obtain ⟨q, hq⟩ := haligned
  have hm0 : 0 ≤ apt.startTime % MINUTES_PER_DAY := emod_day_nonneg _
  have hq0 : 0 ≤ q := by omega
  have hq0' : (0 : ℚ) ≤ (q : ℚ) := by exact_mod_cast hq0
  have htop : calculateAppointmentTop apt.startTime h 30 = (q : ℚ) * h := by
    rw [calculateAppointmentTop_eq, hq]
    push_cast
    rw [mul_comm (30 : ℚ), mul_div_cancel_right₀ _ (by norm_num : (30 : ℚ) ≠ 0)]
  have hS : calculateNewTime (calculateAppointmentTop apt.startTime h 30 + 0)
      h 30 MIN_HOUR overDate = apt.startTime := by
    rw [htop, calculateNewTime_eq, add_zero,
      max_eq_right (by positivity),
      mul_div_cancel_right₀ _ (ne_of_gt hh), jsRound_intCast, ← hday]
    have := dayStart_add_emod apt.startTime
    omega
  unfold handleMoveUpdate
  rw [hfind]
  simp only [addMinutes, hS]
  have hmap : ∀ x ∈ prev,
      (if (x.id == activeId) = true then
        { x with startTime := apt.startTime, endTime := apt.startTime + apt.duration }
      else x) = x := by
    intro x hx
    by_cases hxid : (x.id == activeId) = true
    · rw [if_pos hxid]
      have hxa : x = apt := huniq x hx (by simpa using hxid)
      rw [hxa, ← hconsistent]
    · rw [if_neg hxid]
  rw [List.map_congr_left hmap]
  simp

/-- C7 witness: the amended theorem at the grid-aligned appointment 9:00-9:30
(540-570) of day 0, moved with `dy = 0` onto day 0: the store is unchanged. -/
theorem move_noop_c7_witness :
    (0 : ℚ) < 60 ∧
    ([⟨1, 540, 570, 30⟩] : List Appointment).find? (fun x => x.id == 1) =
        some ⟨1, 540, 570, 30⟩ ∧
    handleMoveUpdate 60 0 1 0 [⟨1, 540, 570, 30⟩] = [⟨1, 540, 570, 30⟩] :=
  ⟨by norm_num, rfl,
    move_noop_c7_amended 60 1 0 [⟨1, 540, 570, 30⟩] ⟨1, 540, 570, 30⟩
      (by norm_num) rfl (by decide) (by decide) (by decide) (by decide)⟩

/-- C10: after every committed move the new start time lies on the 30-minute
grid of the drop column's day regardless of the original alignment: it is
`dayStart(overDate)` plus a non-negative whole number of 30-minute slots, so
its minutes-from-midnight are a multiple of 30. -/
theorem move_alignment_c10 (h dy : ℚ) (activeId : Nat) (overDate : Int)
    (prev : List Appointment) (apt : Appointment) (hh : 0 < h)
    (hfind : prev.find? (fun x => x.id == activeId) = some apt) :
    ∀ b ∈ handleMoveUpdate h dy activeId overDate prev, b.id = activeId →
      (30 : Int) ∣ (b.startTime - dayStart overDate) ∧
      dayStart overDate ≤ b.startTime ∧
      (30 : Int) ∣ b.startTime % MINUTES_PER_DAY := by
  set y : ℚ := calculateAppointmentTop apt.startTime h 30 + dy with hy
  set k : Int := jsRound (max 0 y / h) with hk
  have hk0 : 0 ≤ k := by
    apply jsRound_nonneg
    apply div_nonneg (le_max_left 0 y) (le_of_lt hh)
  have hS : calculateNewTime y h 30 MIN_HOUR overDate = dayStart overDate + k * 30 := by
    rw [calculateNewTime_eq]
  obtain ⟨c, hc⟩ := dvd_dayStart overDate
  intro b hb hid
  have hb' : b.startTime = dayStart overDate + k * 30 := by
    unfold handleMoveUpdate at hb
    rw [hfind] at hb
    simp only [addMinutes] at hb
    rcases List.mem_map.mp hb with ⟨x, -, rfl⟩
    by_cases hxid : (x.id == activeId) = true
    · rw [if_pos hxid]
      exact hS
    · rw [if_neg hxid] at hid
      exact absurd hid (by simpa using hxid)
  refine ⟨by rw [hb']; exact ⟨k, by ring⟩, by omega, ?_⟩
  have h30 : (30 : Int) ∣ MINUTES_PER_DAY := by unfold MINUTES_PER_DAY; norm_num
  have hmodmod : b.startTime % MINUTES_PER_DAY % 30 = b.startTime % 30 :=
    Int.emod_emod_of_dvd b.startTime h30
  have hmod : b.startTime % 30 = 0 := by
    rw [hb', hc]
    omega
  exact Int.dvd_of_emod_eq_zero (by rw [hmodmod, hmod])

/-- C10 witness: the theorem at the off-grid appointment 9:17 (minute 557)
moved with `dy = 0` onto day 0: the committed start is grid aligned. -/
theorem move_alignment_c10_witness :
    (0 : ℚ) < 60 ∧
    ([⟨1, 557, 587, 30⟩] : List Appointment).find? (fun x => x.id == 1) =
        some ⟨1, 557, 587, 30⟩ ∧
    (∀ b ∈ handleMoveUpdate 60 0 1 0 [⟨1, 557, 587, 30⟩], b.id = 1 →
      (30 : Int) ∣ (b.startTime - dayStart 0) ∧
      dayStart 0 ≤ b.startTime ∧
      (30 : Int) ∣ b.startTime % MINUTES_PER_DAY) :=
  ⟨by norm_num, rfl,
    move_alignment_c10 60 0 1 0 [⟨1, 557, 587, 30⟩] ⟨1, 557, 587, 30⟩
      (by norm_num) rfl⟩

/-! ### Working-hours state (claim C6) -/

/-- C6: the stored WorkingHours value always satisfies
`0 ≤ startHour < endHour ≤ 24` with `endHour − startHour ≥ 1` (this is exactly
what `validateWorkingHours` decides); loading from absent, malformed or
invariant-violating storage yields the default `{startHour: 8, endHour: 18}`;
and every `set()` with invalid hours — such as `{startHour: 20, endHour: 8}` —
is rejected with a logged diagnostic, leaving the stored value unchanged. -/
theorem working_hours_c6 (stored : StoredWorkingHours) (st c : WorkingHours) :
    (∀ s e : Int, validateWorkingHours s e = true ↔
      (0 ≤ s ∧ s < e ∧ e ≤ 24 ∧ 1 ≤ e - s)) ∧
    workingHoursInvariant (loadWorkingHours stored) ∧
    (loadWorkingHours .absent = ⟨8, 18⟩ ∧ loadWorkingHours .unparseable = ⟨8, 18⟩ ∧
      loadWorkingHours .nonObject = ⟨8, 18⟩) ∧
    (∀ s e : Int, validateWorkingHours s e = false →
      loadWorkingHours (.object (some s) (some e)) = ⟨8, 18⟩) ∧
    (validateWorkingHours c.startHour c.endHour = false →
      setWorkingHours st c = (st, true)) ∧
    (workingHoursInvariant st → workingHoursInvariant (setWorkingHours st c).1) ∧
    setWorkingHours ⟨8, 20⟩ ⟨20, 8⟩ = (⟨8, 20⟩, true) := by
  have hval : ∀ s e : Int, validateWorkingHours s e = true ↔
      (0 ≤ s ∧ s < e ∧ e ≤ 24 ∧ 1 ≤ e - s) := by
    intro s e
    simp only [validateWorkingHours, MIN_HOUR, MAX_HOUR, MIN_WORKING_HOURS_RANGE,
      Bool.and_eq_true, decide_eq_true_eq, ge_iff_le, gt_iff_lt]
    omega
  have hdef : workingHoursInvariant ⟨DEFAULT_START_HOUR, DEFAULT_END_HOUR⟩ := by
    refine ⟨?_, ?_, ?_, ?_⟩ <;> decide
  have hload : ∀ st' : StoredWorkingHours, workingHoursInvariant (loadWorkingHours st') := by
    intro st'
    match st' with
    | .absent => exact hdef
    | .unparseable => exact hdef
    | .nonObject => exact hdef
    | .object none none => exact hdef
    | .object none (some e) => exact hdef
    | .object (some s) none => exact hdef
    | .object (some s) (some e) =>
      show workingHoursInvariant
        (if validateWorkingHours s e = true then { startHour := s, endHour := e }
         else { startHour := DEFAULT_START_HOUR, endHour := DEFAULT_END_HOUR })
      by_cases hv : validateWorkingHours s e = true
      · rw [if_pos hv]
        have h1 := (hval s e).mp hv
        exact ⟨h1.1, h1.2.1, h1.2.2.1, h1.2.2.2⟩
      · rw [if_neg hv]
        exact hdef
  refine ⟨hval, hload stored, ⟨rfl, rfl, rfl⟩, ?_, ?_, ?_, by decide⟩
  · intro s e hv
    show (if validateWorkingHours s e = true then ({ startHour := s, endHour := e } : WorkingHours)
      else { startHour := DEFAULT_START_HOUR, endHour := DEFAULT_END_HOUR }) = ⟨8, 18⟩
    rw [if_neg (by simp [hv])]
    rfl
  · intro hv
    unfold setWorkingHours
    rw [if_neg (by simp [hv])]
  · intro hst
    unfold setWorkingHours
    by_cases hv : validateWorkingHours c.startHour c.endHour = true
    · rw [if_pos hv]
      have h1 := (hval c.startHour c.endHour).mp hv
      exact ⟨h1.1, h1.2.1, h1.2.2.1, h1.2.2.2⟩
    · rw [if_neg hv]
      exact hst

/-- C6 witness: invariant-violating storage `{20, 8}` loads as the default and
the setter rejects `{20, 8}`, keeping `{8, 20}`. -/
theorem working_hours_c6_witness :
    workingHoursInvariant (loadWorkingHours (.object (some 20) (some 8))) ∧
    setWorkingHours ⟨8, 20⟩ ⟨20, 8⟩ = (⟨8, 20⟩, true) :=
  ⟨(working_hours_c6 (.object (some 20) (some 8)) ⟨8, 20⟩ ⟨20, 8⟩).2.1,
    (working_hours_c6 (.object (some 20) (some 8)) ⟨8, 20⟩ ⟨20, 8⟩).2.2.2.2.2.2⟩

/-! ### Overlap grouper (claims C5, C8, C9) -/

lemma appointmentsOverlap_symm (a b : Appointment) :
    appointmentsOverlap a b = appointmentsOverlap b a := by
  simp only [appointmentsOverlap, gt_iff_lt, Bool.and_comm]

lemma appointmentsOverlap_self (a : Appointment) (h : a.startTime < a.endTime) :
    appointmentsOverlap a a = true := by
  simp only [appointmentsOverlap, gt_iff_lt, Bool.and_eq_true, decide_eq_true_eq]
  exact ⟨h, h⟩

lemma jsMapSet_mem (m : List (Nat × List Appointment)) (k : Nat)
    (v : List Appointment) (q : Nat × List Appointment) (hq : q ∈ jsMapSet m k v) :
    q ∈ m ∨ q = (k, v) := by
  unfold jsMapSet at hq
  by_cases hany : m.any (fun p => p.1 == k) = true
  · rw [if_pos hany] at hq
    rcases List.mem_map.mp hq with ⟨p, hp, rfl⟩
    by_cases hpk : (p.1 == k) = true
    · rw [if_pos hpk]; exact Or.inr rfl
    · rw [if_neg hpk]; exact Or.inl hp
  · rw [if_neg hany] at hq
    rcases List.mem_append.mp hq with hq | hq
    · exact Or.inl hq
    · exact Or.inr (List.mem_singleton.mp hq)

lemma foldl_detect_inv (sorted : List Appointment) :
    ∀ (es : List (Nat × Appointment)) (acc : List (Nat × List Appointment)),
      (∀ kg ∈ acc, ∃ x ∈ kg.2, x.id = kg.1) →
      ∀ kg ∈ es.foldl
          (fun m p => jsMapSet m p.2.id (overlappingFor sorted p.1 p.2)) acc,
        ∃ x ∈ kg.2, x.id = kg.1 := by
  intro es
  induction es with
  | nil => intro acc hacc kg hkg; exact hacc kg hkg
  | cons p es ih =>
    intro acc hacc kg hkg
    rw [List.foldl_cons] at hkg
    refine ih _ ?_ kg hkg
    intro kg' hkg'
    rcases jsMapSet_mem _ _ _ kg' hkg' with h | rfl
    · exact hacc kg' h
    · exact ⟨p.2, List.mem_cons_self _ _, rfl⟩

lemma detect_entry_head (l : List Appointment) (kg : Nat × List Appointment)
    (hkg : kg ∈ detectOverlappingAppointments l) : ∃ x ∈ kg.2, x.id = kg.1 := by
  unfold detectOverlappingAppointments at hkg
  exact foldl_detect_inv (sortByStart l) (sortByStart l).enum [] (by simp) kg hkg

lemma jsMapGet_some_mem (m : List (Nat × List Appointment)) (k : Nat)
    (g : List Appointment) (h : jsMapGet m k = some g) : (k, g) ∈ m := by
  unfold jsMapGet at h
  rcases hopt : m.find? (fun p => p.1 == k) with - | pr
  · rw [hopt] at h; simp at h
  · rw [hopt] at h
    simp only [Option.map_some'] at h
    have hk : pr.1 = k := by simpa using List.find?_some hopt
    have hg : pr.2 = g := by simpa using h
    have : pr = (k, g) := Prod.ext hk hg
    rw [← this]
    exact List.mem_of_find?_eq_some hopt

/-- C9: for every id present in the overlapping-groups map produced by
`detectOverlappingAppointments`, `calculateAppointmentOffset` returns
`0 ≤ offsetIndex < totalOverlapping` with `totalOverlapping ≥ 1`; for an id
absent from the map it returns `{offsetIndex: 0, totalOverlapping: 0}`, and
the card width logic treats `totalOverlapping = 0` as a full-width card
(`widthPercentage 0 = 100`, `leftPercentage 0 0 = 0`). -/
theorem offset_lookup_c9 (l : List Appointment) (k : Nat) :
    (∀ g, jsMapGet (detectOverlappingAppointments l) k = some g →
      1 ≤ (calculateAppointmentOffset k (detectOverlappingAppointments l)).2 ∧
      (calculateAppointmentOffset k (detectOverlappingAppointments l)).1 <
        (calculateAppointmentOffset k (detectOverlappingAppointments l)).2) ∧
    (jsMapGet (detectOverlappingAppointments l) k = none →
      calculateAppointmentOffset k (detectOverlappingAppointments l) = (0, 0)) ∧
    widthPercentage 0 = 100 ∧ leftPercentage 0 0 = 0 := by
  refine ⟨?_, ?_, rfl, rfl⟩
  · intro g hget
    obtain ⟨x, hxg, hxid⟩ :=
      detect_entry_head l (k, g) (jsMapGet_some_mem _ _ _ hget)
    have hxs : x ∈ List.insertionSort groupOrder g :=
      (List.perm_insertionSort groupOrder g).mem_iff.mpr hxg
    have hex : ∃ y ∈ List.insertionSort groupOrder g, (fun apt => apt.id == k) y = true :=
      ⟨x, hxs, by simp [hxid]⟩
    have hlt := List.findIdx_lt_length_of_exists hex
    have hlen : 1 ≤ (List.insertionSort groupOrder g).length :=
      List.length_pos.mpr (List.ne_nil_of_mem hxs)
    unfold calculateAppointmentOffset
    rw [hget]
    simp only [Option.getD_some, if_pos hlt]
    exact ⟨hlen, hlt⟩
  · intro hget
    unfold calculateAppointmentOffset
    rw [hget]
    rfl

/-- C9 witness: the theorem at a concrete two-appointment day, for a present
id (1) and an absent id (7). -/
theorem offset_lookup_c9_witness :
    (1 ≤ (calculateAppointmentOffset 1 (detectOverlappingAppointments
        [⟨1, 540, 570, 30⟩, ⟨2, 555, 585, 30⟩])).2 ∧
      (calculateAppointmentOffset 1 (detectOverlappingAppointments
        [⟨1, 540, 570, 30⟩, ⟨2, 555, 585, 30⟩])).1 <
      (calculateAppointmentOffset 1 (detectOverlappingAppointments
        [⟨1, 540, 570, 30⟩, ⟨2, 555, 585, 30⟩])).2) ∧
    calculateAppointmentOffset 7 (detectOverlappingAppointments
      [⟨1, 540, 570, 30⟩, ⟨2, 555, 585, 30⟩]) = (0, 0) :=
  ⟨(offset_lookup_c9 [⟨1, 540, 570, 30⟩, ⟨2, 555, 585, 30⟩] 1).1
      [⟨1, 540, 570, 30⟩, ⟨2, 555, 585, 30⟩] (by decide),
    (offset_lookup_c9 [⟨1, 540, 570, 30⟩, ⟨2, 555, 585, 30⟩] 7).2.1 (by decide)⟩

/-- C8: the half-open overlap test reports `A = [09:00, 09:30)` and
`B = [09:15, 09:45)` (minutes 540-570 and 555-585) as overlapping, and lane
computation assigns A `{offsetIndex: 0, totalOverlapping: 2}` and B
`{offsetIndex: 1, totalOverlapping: 2}` — the earlier start time getting the
lower offset index. -/
theorem overlap_lanes_c8 :
    (∀ a b : Appointment, appointmentsOverlap a b = true ↔
      (a.startTime < b.endTime ∧ a.endTime > b.startTime)) ∧
    appointmentsOverlap ⟨1, 540, 570, 30⟩ ⟨2, 555, 585, 30⟩ = true ∧
    calculateAppointmentOffset 1 (detectOverlappingAppointments
      [⟨1, 540, 570, 30⟩, ⟨2, 555, 585, 30⟩]) = (0, 2) ∧
    calculateAppointmentOffset 2 (detectOverlappingAppointments
      [⟨1, 540, 570, 30⟩, ⟨2, 555, 585, 30⟩]) = (1, 2) := by
  refine ⟨?_, by decide, by decide, by decide⟩
  intro a b
  simp [appointmentsOverlap]

instance : IsTotal Appointment startLe :=
  ⟨fun a b => Int.le_total a.startTime b.startTime⟩

instance : IsTrans Appointment startLe :=
  ⟨fun _ _ _ hab hbc => le_trans hab hbc⟩

instance : IsTotal Appointment groupOrder := by
  constructor
  intro a b
  rcases lt_trichotomy a.startTime b.startTime with h | h | h
  · exact Or.inl (Or.inl h)
  · rcases Nat.le_total a.id b.id with hid | hid
    · exact Or.inl (Or.inr ⟨h, hid⟩)
    · exact Or.inr (Or.inr ⟨h.symm, hid⟩)
  · exact Or.inr (Or.inl h)

instance : IsTrans Appointment groupOrder := by
  constructor
  intro a b c hab hbc
  rcases hab with h1 | ⟨h1, h1'⟩ <;> rcases hbc with h2 | ⟨h2, h2'⟩
  · exact Or.inl (lt_trans h1 h2)
  · exact Or.inl (h2 ▸ h1)
  · exact Or.inl (h1 ▸ h2)
  · exact Or.inr ⟨h1.trans h2, le_trans h1' h2'⟩

lemma groupOrder_antisymm_of_id (x y : Appointment) (hid : x.id = y.id → x = y)
    (h1 : groupOrder x y) (h2 : groupOrder y x) : x = y := by
  rcases h1 with h1 | ⟨e1, le1⟩ <;> rcases h2 with h2 | ⟨e2, le2⟩
  · exact absurd h2 (lt_asymm h1)
  · omega
  · omega
  · exact hid (Nat.le_antisymm le1 le2)

lemma eq_of_perm_of_sorted_local {α : Type} {r : α → α → Prop} :
    ∀ {l₁ l₂ : List α}, l₁.Perm l₂ →
      List.Pairwise r l₁ → List.Pairwise r l₂ →
      (∀ x ∈ l₁, ∀ y ∈ l₁, r x y → r y x → x = y) →
      l₁ = l₂ := by
  intro l₁
  induction l₁ with
  | nil =>
    intro l₂ hp _ _ _
    exact (hp.symm.eq_nil).symm
  | cons x t₁ ih =>
    intro l₂ hp hs₁ hs₂ hanti
    cases l₂ with
    | nil => exact absurd hp.eq_nil (by simp)
    | cons y t₂ =>
      have hx2 : x ∈ y :: t₂ := hp.mem_iff.mp (List.mem_cons_self x t₁)
      have hy1 : y ∈ x :: t₁ := hp.mem_iff.mpr (List.mem_cons_self y t₂)
      have hxy : x = y := by
        rcases List.mem_cons.mp hx2 with h | hxt2
        · exact h
        rcases List.mem_cons.mp hy1 with h | hyt1
        · exact h.symm
        have hryx : r y x := (List.pairwise_cons.mp hs₂).1 x hxt2
        have hrxy : r x y := (List.pairwise_cons.mp hs₁).1 y hyt1
        exact hanti x (List.mem_cons_self x t₁) y hy1 hrxy hryx
      subst hxy
      have hp' : t₁.Perm t₂ := hp.cons_inv
      rw [ih hp' (List.pairwise_cons.mp hs₁).2 (List.pairwise_cons.mp hs₂).2
        (fun u hu v hv => hanti u (List.mem_cons_of_mem x hu)
          v (List.mem_cons_of_mem x hv))]

lemma nodup_map_id_index (s : List Appointment)
    (hids : (s.map (fun a => a.id)).Nodup)
    (i j : Nat) (hi : i < s.length) (hj : j < s.length)
    (hij : s[i].id = s[j].id) : i = j := by
  rw [List.nodup_iff_injective_get] at hids
  have h1 : (s.map (fun a => a.id)).get ⟨i, by simpa using hi⟩ =
      (s.map (fun a => a.id)).get ⟨j, by simpa using hj⟩ := by
    rw [List.get_eq_getElem, List.get_eq_getElem, List.getElem_map, List.getElem_map]
    exact hij
  exact congrArg Fin.val (hids h1)

lemma enumFrom_filter_map (p : Nat × Appointment → Bool) (q : Appointment → Bool) :
    ∀ (s : List Appointment) (n : Nat),
      (∀ i (hi : i < s.length), p (n + i, s[i]) = q s[i]) →
      ((List.enumFrom n s).filter p).map Prod.snd = s.filter q := by
  intro s
  induction s with
  | nil => intro n _; rfl
  | cons a t ih =>
    intro n hpq
    have h0 : p (n, a) = q a := by
      have := hpq 0 (by simp)
      simpa using this
    have hrec : ∀ i (hi : i < t.length), p (n + 1 + i, t[i]) = q t[i] := by
      intro i hi
      have h1 := hpq (i + 1) (by simpa using Nat.succ_lt_succ hi)
      rw [show n + (i + 1) = n + 1 + i by omega] at h1
      simpa using h1
    rw [show List.enumFrom n (a :: t) = (n, a) :: List.enumFrom (n + 1) t from rfl]
    by_cases hqa : q a = true
    · rw [List.filter_cons_of_pos (by rw [h0]; exact hqa),
        List.filter_cons_of_pos hqa, List.map_cons, ih (n + 1) hrec]
    · rw [List.filter_cons_of_neg (by rw [h0]; simpa using hqa),
        List.filter_cons_of_neg (by simpa using hqa), ih (n + 1) hrec]

lemma overlappingFor_eq (s : List Appointment)
    (hids : (s.map (fun a => a.id)).Nodup)
    (ix : Nat) (a : Appointment) (hix : ix < s.length) (hax : s[ix] = a) :
    overlappingFor s ix a =
      a :: s.filter (fun b => decide (b.id ≠ a.id) && appointmentsOverlap a b) := by
  unfold overlappingFor
  congr 1
  rw [show s.enum = List.enumFrom 0 s from rfl]
  apply enumFrom_filter_map
  intro i hi
  have hiff : (0 + i ≠ ix) ↔ (s[i].id ≠ a.id) := by
    rw [Nat.zero_add]
    constructor
    · intro hne hidEq
      exact hne (nodup_map_id_index s hids i ix hi hix (by rw [hax]; exact hidEq))
    · intro hne hiix
      subst hiix
      exact hne (by rw [hax])
  rw [decide_eq_decide.mpr hiff]

lemma foldl_detect_fresh (s : List Appointment) :
    ∀ (es : List (Nat × Appointment)) (acc : List (Nat × List Appointment)),
      (es.map (fun p => p.2.id)).Nodup →
      (∀ p ∈ es, ∀ x ∈ acc, x.1 ≠ p.2.id) →
      es.foldl (fun m p => jsMapSet m p.2.id (overlappingFor s p.1 p.2)) acc =
        acc ++ es.map (fun p => (p.2.id, overlappingFor s p.1 p.2)) := by
  intro es
  induction es with
  | nil => intro acc _ _; simp
  | cons p es ih =>
    intro acc hnd hfresh
    rw [List.map_cons] at hnd
    have hnd1 : p.2.id ∉ es.map (fun r => r.2.id) := (List.nodup_cons.mp hnd).1
    have hnd2 : (es.map (fun r => r.2.id)).Nodup := (List.nodup_cons.mp hnd).2
    have hset : jsMapSet acc p.2.id (overlappingFor s p.1 p.2) =
        acc ++ [(p.2.id, overlappingFor s p.1 p.2)] := by
      unfold jsMapSet
      rw [if_neg]
      simp only [List.any_eq_true, beq_iff_eq, not_exists, not_and]
      exact fun x hx => hfresh p (List.mem_cons_self p es) x hx
    rw [List.foldl_cons, hset,
      ih (acc ++ [(p.2.id, overlappingFor s p.1 p.2)]) hnd2 ?_]
    · rw [List.map_cons, List.append_assoc]
      rfl
    · intro q hq x hx
      rcases List.mem_append.mp hx with hx | hx
      · exact hfresh q (List.mem_cons_of_mem p hq) x hx
      · rcases List.mem_singleton.mp hx with rfl
        intro heq
        have heq2 : p.2.id = q.2.id := heq
        exact hnd1 (heq2 ▸ List.mem_map_of_mem (fun r => r.2.id) hq)

lemma detect_eq (l : List Appointment)
    (hids : ((sortByStart l).map (fun a => a.id)).Nodup) :
    detectOverlappingAppointments l =
      (sortByStart l).enum.map
        (fun p => (p.2.id, overlappingFor (sortByStart l) p.1 p.2)) := by
  show (sortByStart l).enum.foldl
      (fun m p => jsMapSet m p.2.id (overlappingFor (sortByStart l) p.1 p.2)) [] = _
  rw [foldl_detect_fresh (sortByStart l) (sortByStart l).enum [] ?_ (by simp)]
  · rw [List.nil_append]
  · have hsnd : (sortByStart l).enum.map (fun p => p.2.id) =
        (sortByStart l).map (fun a => a.id) := by
      rw [show (fun p : Nat × Appointment => p.2.id) =
        ((fun a : Appointment => a.id) ∘ Prod.snd) from rfl, ← List.map_map,
        List.enum_map_snd]
    rw [hsnd]
    exact hids

lemma enumFrom_find_of_mem :
    ∀ (s : List Appointment) (n : Nat) (a : Appointment),
      (s.map (fun x => x.id)).Nodup → a ∈ s →
      ∃ i, ∃ hi : i < s.length, s[i] = a ∧
        (List.enumFrom n s).find? (fun p => p.2.id == a.id) = some (n + i, a) := by
  intro s
  induction s with
  | nil => intro n a _ ha; exact absurd ha (by simp)
  | cons y t ih =>
    intro n a hnd ha
    rw [List.map_cons] at hnd
    have hnd1 : y.id ∉ t.map (fun x => x.id) := (List.nodup_cons.mp hnd).1
    have hnd2 : (t.map (fun x => x.id)).Nodup := (List.nodup_cons.mp hnd).2
    by_cases hya : y.id = a.id
    · have hay : y = a := by
        rcases List.mem_cons.mp ha with rfl | hat
        · rfl
        · exact absurd (hya ▸ List.mem_map_of_mem (fun x => x.id) hat) hnd1
      refine ⟨0, by simp, by simpa using hay, ?_⟩
      rw [show List.enumFrom n (y :: t) = (n, y) :: List.enumFrom (n + 1) t from rfl,
        List.find?_cons_of_pos _ (by simpa using hya), hay]
      simp
    · have hat : a ∈ t := by
        rcases List.mem_cons.mp ha with rfl | h
        · exact absurd rfl hya
        · exact h
      obtain ⟨i, hi, hia, hfind⟩ := ih (n + 1) a hnd2 hat
      refine ⟨i + 1, by simpa using Nat.succ_lt_succ hi, by simpa using hia, ?_⟩
      rw [show List.enumFrom n (y :: t) = (n, y) :: List.enumFrom (n + 1) t from rfl,
        List.find?_cons_of_neg _ (by simpa using hya), hfind,
        show (n + 1 + i : Nat) = n + (i + 1) from by omega]

lemma detect_lookup (l : List Appointment)
    (hids : ((sortByStart l).map (fun a => a.id)).Nodup)
    (a : Appointment) (ha : a ∈ sortByStart l) :
    ∃ ix, ∃ hix : ix < (sortByStart l).length, (sortByStart l)[ix] = a ∧
      jsMapGet (detectOverlappingAppointments l) a.id =
        some (overlappingFor (sortByStart l) ix a) := by
  obtain ⟨i, hi, hia, hfind⟩ := enumFrom_find_of_mem (sortByStart l) 0 a hids ha
  refine ⟨i, hi, hia, ?_⟩
  rw [detect_eq l hids]
  unfold jsMapGet
  rw [List.find?_map,
    show ((fun q : Nat × List Appointment => q.1 == a.id) ∘
      (fun p : Nat × Appointment =>
        (p.2.id, overlappingFor (sortByStart l) p.1 p.2))) =
      (fun p : Nat × Appointment => p.2.id == a.id) from rfl,
    show (sortByStart l).enum = List.enumFrom 0 (sortByStart l) from rfl, hfind]
  simp only [Option.map_some', Option.map_some]
  rw [show (0 + i : Nat) = i from by omega]

lemma group_of_detect (l : List Appointment)
    (hidsl : (l.map (fun a => a.id)).Nodup) (a : Appointment) (ha : a ∈ l) :
    jsMapGet (detectOverlappingAppointments l) a.id =
      some (a :: (sortByStart l).filter
        (fun b => decide (b.id ≠ a.id) && appointmentsOverlap a b)) := by
  have hperm : (sortByStart l).Perm l := List.perm_insertionSort startLe l
  have hids : ((sortByStart l).map (fun a => a.id)).Nodup :=
    (hperm.map (fun a => a.id)).nodup_iff.mpr hidsl
  have has : a ∈ sortByStart l := hperm.mem_iff.mpr ha
  obtain ⟨ix, hix, hixa, hget⟩ := detect_lookup l hids a has
  rw [hget, overlappingFor_eq (sortByStart l) hids ix a hix hixa]

lemma group_perm_overlap (s : List Appointment)
    (hids : (s.map (fun x => x.id)).Nodup)
    (a : Appointment) (ha : a ∈ s) (hself : appointmentsOverlap a a = true) :
    (a :: s.filter (fun b => decide (b.id ≠ a.id) && appointmentsOverlap a b)).Perm
      (s.filter (fun b => appointmentsOverlap a b)) := by
  obtain ⟨u, v, rfl⟩ := List.append_of_mem ha
  have hmid : a.id ∉ u.map (fun x => x.id) ++ v.map (fun x => x.id) := by
    have h1 : ((u ++ a :: v).map (fun x => x.id)).Nodup := hids
    rw [List.map_append, List.map_cons] at h1
    exact (List.nodup_cons.mp (List.nodup_middle.mp h1)).1
  have hu : ∀ x ∈ u, x.id ≠ a.id := by
    intro x hx heq
    exact hmid (List.mem_append.mpr
      (Or.inl (heq ▸ List.mem_map_of_mem (fun y => y.id) hx)))
  have hv : ∀ x ∈ v, x.id ≠ a.id := by
    intro x hx heq
    exact hmid (List.mem_append.mpr
      (Or.inr (heq ▸ List.mem_map_of_mem (fun y => y.id) hx)))
  have hfu : u.filter (fun b => decide (b.id ≠ a.id) && appointmentsOverlap a b) =
      u.filter (fun b => appointmentsOverlap a b) :=
    List.filter_congr (fun x hx => by
      rw [decide_eq_true (hu x hx), Bool.true_and])
  have hfv : v.filter (fun b => decide (b.id ≠ a.id) && appointmentsOverlap a b) =
      v.filter (fun b => appointmentsOverlap a b) :=
    List.filter_congr (fun x hx => by
      rw [decide_eq_true (hv x hx), Bool.true_and])
  have hL : (u ++ a :: v).filter
        (fun b => decide (b.id ≠ a.id) && appointmentsOverlap a b) =
      u.filter (fun b => appointmentsOverlap a b) ++
        v.filter (fun b => appointmentsOverlap a b) := by
    rw [List.filter_append, List.filter_cons_of_neg (by simp), hfu, hfv]
  have hR : (u ++ a :: v).filter (fun b => appointmentsOverlap a b) =
      u.filter (fun b => appointmentsOverlap a b) ++
        a :: v.filter (fun b => appointmentsOverlap a b) := by
    rw [List.filter_append, List.filter_cons_of_pos hself]
  rw [hL, hR]
  exact List.perm_middle.symm

lemma filter_overlap_eq (s l : List Appointment) (hperm : s.Perm l)
    (htrans : ∀ x ∈ l, ∀ y ∈ l, ∀ z ∈ l, appointmentsOverlap x y = true →
      appointmentsOverlap y z = true → appointmentsOverlap x z = true)
    (a b : Appointment) (ha : a ∈ l) (hb : b ∈ l)
    (hov : appointmentsOverlap a b = true) :
    s.filter (fun y => appointmentsOverlap a y) =
      s.filter (fun y => appointmentsOverlap b y) := by
  apply List.filter_congr
  intro y hy
  have hyl : y ∈ l := hperm.mem_iff.mp hy
  have hba : appointmentsOverlap b a = true := by
    rw [appointmentsOverlap_symm]; exact hov
  rcases h1 : appointmentsOverlap a y with - | -
  · rcases h2 : appointmentsOverlap b y with - | -
    · rfl
    · exact absurd (htrans a ha b hb y hyl hov h2) (by simp [h1])
  · exact (htrans b hb a ha y hyl hba h1).symm

lemma group_ids_nodup (s : List Appointment)
    (hids : (s.map (fun x => x.id)).Nodup) (a : Appointment) :
    ((a :: s.filter (fun b => decide (b.id ≠ a.id) && appointmentsOverlap a b)).map
      (fun x => x.id)).Nodup := by
  rw [List.map_cons, List.nodup_cons]
  constructor
  · intro hmem
    rcases List.mem_map.mp hmem with ⟨y, hyf, hyid⟩
    have hprop := (List.mem_filter.mp hyf).2
    simp only [Bool.and_eq_true, decide_eq_true_eq] at hprop
    exact hprop.1 hyid
  · exact (((List.filter_sublist s).map (fun x => x.id)).nodup) hids

lemma findIdx_id_of_nodup :
    ∀ (L : List Appointment), (L.map (fun x => x.id)).Nodup →
      ∀ a : Appointment, a ∈ L →
      ∃ i, ∃ hi : i < L.length, L[i] = a ∧
        L.findIdx (fun x => x.id == a.id) = i := by
  intro L
  induction L with
  | nil => intro _ a ha; exact absurd ha (by simp)
  | cons y t ih =>
    intro hnd a ha
    rw [List.map_cons] at hnd
    have hnd1 := (List.nodup_cons.mp hnd).1
    have hnd2 := (List.nodup_cons.mp hnd).2
    by_cases hya : y.id = a.id
    · have hay : y = a := by
        rcases List.mem_cons.mp ha with rfl | hat
        · rfl
        · exact absurd (hya ▸ List.mem_map_of_mem (fun x => x.id) hat) hnd1
      refine ⟨0, by simp, by simpa using hay, ?_⟩
      rw [List.findIdx_cons]
      simp [hya]
    · have hat : a ∈ t := by
        rcases List.mem_cons.mp ha with rfl | h
        · exact absurd rfl hya
        · exact h
      obtain ⟨i, hi, hia, hfi⟩ := ih hnd2 a hat
      refine ⟨i + 1, by simpa using Nat.succ_lt_succ hi, by simpa using hia, ?_⟩
      rw [List.findIdx_cons, show (y.id == a.id) = false from by simp [hya], hfi,
        Bool.cond_false]

lemma offset_spec (l : List Appointment)
    (hids : (l.map (fun x => x.id)).Nodup)
    (a : Appointment) (ha : a ∈ l) :
    ∃ i : Nat,
      calculateAppointmentOffset a.id (detectOverlappingAppointments l) =
        (i, (List.insertionSort groupOrder (a :: (sortByStart l).filter
          (fun b => decide (b.id ≠ a.id) && appointmentsOverlap a b))).length) ∧
      ∃ hi : i < (List.insertionSort groupOrder (a :: (sortByStart l).filter
          (fun b => decide (b.id ≠ a.id) && appointmentsOverlap a b))).length,
        (List.insertionSort groupOrder (a :: (sortByStart l).filter
          (fun b => decide (b.id ≠ a.id) && appointmentsOverlap a b)))[i] = a := by
  have hperm : (sortByStart l).Perm l := List.perm_insertionSort startLe l
  have hidss : ((sortByStart l).map (fun x => x.id)).Nodup :=
    (hperm.map (fun x => x.id)).nodup_iff.mpr hids
  have hGnd := group_ids_nodup (sortByStart l) hidss a
  have hLperm := List.perm_insertionSort groupOrder
    (a :: (sortByStart l).filter (fun b => decide (b.id ≠ a.id) && appointmentsOverlap a b))
  have hLnd : ((List.insertionSort groupOrder
      (a :: (sortByStart l).filter
        (fun b => decide (b.id ≠ a.id) && appointmentsOverlap a b))).map
      (fun x => x.id)).Nodup :=
    (hLperm.map (fun x => x.id)).nodup_iff.mpr hGnd
  have haL : a ∈ List.insertionSort groupOrder
      (a :: (sortByStart l).filter
        (fun b => decide (b.id ≠ a.id) && appointmentsOverlap a b)) :=
    hLperm.mem_iff.mpr (List.mem_cons_self a _)
  obtain ⟨i, hi, hia, hfi⟩ := findIdx_id_of_nodup _ hLnd a haL
  refine ⟨i, ?_, hi, hia⟩
  unfold calculateAppointmentOffset
  rw [group_of_detect l hids a ha]
  simp only [Option.getD_some]
  rw [hfi, if_pos hi]

lemma sortedGroup_eq_of_overlap (l : List Appointment)
    (hids : (l.map (fun x => x.id)).Nodup)
    (hpos : ∀ x ∈ l, x.startTime < x.endTime)
    (htrans : ∀ x ∈ l, ∀ y ∈ l, ∀ z ∈ l, appointmentsOverlap x y = true →
      appointmentsOverlap y z = true → appointmentsOverlap x z = true)
    (a b : Appointment) (ha : a ∈ l) (hb : b ∈ l)
    (hov : appointmentsOverlap a b = true) :
    List.insertionSort groupOrder (a :: (sortByStart l).filter
      (fun c => decide (c.id ≠ a.id) && appointmentsOverlap a c)) =
    List.insertionSort groupOrder (b :: (sortByStart l).filter
      (fun c => decide (c.id ≠ b.id) && appointmentsOverlap b c)) := by
  have hperm : (sortByStart l).Perm l := List.perm_insertionSort startLe l
  have hidss : ((sortByStart l).map (fun x => x.id)).Nodup :=
    (hperm.map (fun x => x.id)).nodup_iff.mpr hids
  have has : a ∈ sortByStart l := hperm.mem_iff.mpr ha
  have hbs : b ∈ sortByStart l := hperm.mem_iff.mpr hb
  have hpa := group_perm_overlap (sortByStart l) hidss a has
    (appointmentsOverlap_self a (hpos a ha))
  have hpb := group_perm_overlap (sortByStart l) hidss b hbs
    (appointmentsOverlap_self b (hpos b hb))
  have hfe := filter_overlap_eq (sortByStart l) l hperm htrans a b ha hb hov
  have hfb : ((sortByStart l).filter (fun y => appointmentsOverlap a y)).Perm
      (b :: (sortByStart l).filter
        (fun c => decide (c.id ≠ b.id) && appointmentsOverlap b c)) := by
    rw [hfe]
    exact hpb.symm
  have hGperm : (a :: (sortByStart l).filter
        (fun c => decide (c.id ≠ a.id) && appointmentsOverlap a c)).Perm
      (b :: (sortByStart l).filter
        (fun c => decide (c.id ≠ b.id) && appointmentsOverlap b c)) :=
    hpa.trans hfb
  have hLnd : ((List.insertionSort groupOrder (a :: (sortByStart l).filter
      (fun c => decide (c.id ≠ a.id) && appointmentsOverlap a c))).map
      (fun x => x.id)).Nodup :=
    ((List.perm_insertionSort groupOrder _).map (fun x => x.id)).nodup_iff.mpr
      (group_ids_nodup (sortByStart l) hidss a)
  apply eq_of_perm_of_sorted_local
  · exact (List.perm_insertionSort groupOrder _).trans
      (hGperm.trans (List.perm_insertionSort groupOrder _).symm)
  · exact List.sorted_insertionSort groupOrder _
  · exact List.sorted_insertionSort groupOrder _
  · intro x hx y hy hxy hyx
    exact groupOrder_antisymm_of_id x y
      (fun hid => List.inj_on_of_nodup_map hLnd hx hy hid) hxy hyx

lemma two_le_length_of_two_mem {α : Type} (L : List α) (a b : α)
    (ha : a ∈ L) (hb : b ∈ L) (hab : a ≠ b) : 2 ≤ L.length := by
  cases L with
  | nil => exact absurd ha (by simp)
  | cons x t =>
    cases t with
    | nil =>
      rcases List.mem_singleton.mp ha with rfl
      rcases List.mem_singleton.mp hb with rfl
      exact absurd rfl hab
    | cons y u =>
      simp only [List.length_cons]
      omega

/-- C5 (amended): when the overlap relation is transitive on the day's set —
every overlap cluster is a clique, which excludes the chain `a–b, b–c`
without `a–c` — the lane assignments partition the column: two distinct
overlapping appointments get the same `totalOverlapping ≥ 2`, distinct
`offsetIndex < totalOverlapping`, disjoint horizontal spans
`[offsetIndex·100/n, (offsetIndex+1)·100/n)`, and the widths summed over an
appointment's overlap group are exactly 100% of the column.  (For chained
non-transitive overlaps the claim fails; see the counterexample.) -/
theorem overlap_partition_c5_amended (l : List Appointment)
    (hids : (l.map (fun x => x.id)).Nodup)
    (hpos : ∀ x ∈ l, x.startTime < x.endTime)
    (htrans : ∀ x ∈ l, ∀ y ∈ l, ∀ z ∈ l, appointmentsOverlap x y = true →
      appointmentsOverlap y z = true → appointmentsOverlap x z = true)
    (a b : Appointment) (ha : a ∈ l) (hb : b ∈ l) (hab : a ≠ b)
    (hov : appointmentsOverlap a b = true) :
    (calculateAppointmentOffset a.id (detectOverlappingAppointments l)).2 =
      (calculateAppointmentOffset b.id (detectOverlappingAppointments l)).2 ∧
    2 ≤ (calculateAppointmentOffset a.id (detectOverlappingAppointments l)).2 ∧
    (calculateAppointmentOffset a.id (detectOverlappingAppointments l)).1 <
      (calculateAppointmentOffset a.id (detectOverlappingAppointments l)).2 ∧
    (calculateAppointmentOffset b.id (detectOverlappingAppointments l)).1 <
      (calculateAppointmentOffset b.id (detectOverlappingAppointments l)).2 ∧
    (calculateAppointmentOffset a.id (detectOverlappingAppointments l)).1 ≠
      (calculateAppointmentOffset b.id (detectOverlappingAppointments l)).1 ∧
    (leftPercentage (calculateAppointmentOffset a.id (detectOverlappingAppointments l)).1
        (calculateAppointmentOffset a.id (detectOverlappingAppointments l)).2 +
      widthPercentage (calculateAppointmentOffset a.id (detectOverlappingAppointments l)).2 ≤
      leftPercentage (calculateAppointmentOffset b.id (detectOverlappingAppointments l)).1
        (calculateAppointmentOffset b.id (detectOverlappingAppointments l)).2 ∨
      leftPercentage (calculateAppointmentOffset b.id (detectOverlappingAppointments l)).1
        (calculateAppointmentOffset b.id (detectOverlappingAppointments l)).2 +
      widthPercentage (calculateAppointmentOffset b.id (detectOverlappingAppointments l)).2 ≤
      leftPercentage (calculateAppointmentOffset a.id (detectOverlappingAppointments l)).1
        (calculateAppointmentOffset a.id (detectOverlappingAppointments l)).2) ∧
    (((jsMapGet (detectOverlappingAppointments l) a.id).getD []).map
      (fun x => widthPercentage
        (calculateAppointmentOffset x.id (detectOverlappingAppointments l)).2)).sum
      = 100 := by
  obtain ⟨ia, hoa, hialt, hiaget⟩ := offset_spec l hids a ha
  obtain ⟨ib, hob, hiblt, hibget⟩ := offset_spec l hids b hb
  have hLeq := sortedGroup_eq_of_overlap l hids hpos htrans a b ha hb hov
  rw [← hLeq] at hob
  have hiblt' : ib < (List.insertionSort groupOrder (a :: (sortByStart l).filter
      (fun c => decide (c.id ≠ a.id) && appointmentsOverlap a c))).length := by
    rw [hLeq]; exact hiblt
  have hibgetA : (List.insertionSort groupOrder (a :: (sortByStart l).filter
      (fun c => decide (c.id ≠ a.id) && appointmentsOverlap a c)))[ib] = b := by
    simp only [hLeq]
    exact hibget
  have hbmem : b ∈ List.insertionSort groupOrder (a :: (sortByStart l).filter
      (fun c => decide (c.id ≠ a.id) && appointmentsOverlap a c)) := by
    have hmem := List.getElem_mem hiblt'
    rwa [hibgetA] at hmem
  have hamem : a ∈ List.insertionSort groupOrder (a :: (sortByStart l).filter
      (fun c => decide (c.id ≠ a.id) && appointmentsOverlap a c)) := by
    have hmem := List.getElem_mem hialt
    rwa [hiaget] at hmem
  have h2n : 2 ≤ (List.insertionSort groupOrder (a :: (sortByStart l).filter
      (fun c => decide (c.id ≠ a.id) && appointmentsOverlap a c))).length :=
    two_le_length_of_two_mem _ a b hamem hbmem hab
  have hianeib : ia ≠ ib := by
    intro heq
    subst heq
    exact hab (hiaget.symm.trans hibgetA)
  have hspan : ∀ i j n : Nat, 2 ≤ n → i < j →
      leftPercentage i n + widthPercentage n ≤ leftPercentage j n := by
    intro i j n hn hij
    have hn1 : n > 1 := by omega
    have hnq : (0 : ℚ) < (n : ℚ) := by exact_mod_cast Nat.lt_of_lt_of_le Nat.zero_lt_two hn
    rw [leftPercentage, leftPercentage, widthPercentage, if_pos hn1, if_pos hn1,
      if_pos hn1, div_add_div_same, div_le_div_iff₀ hnq hnq]
    have hij' : (i : ℚ) + 1 ≤ (j : ℚ) := by exact_mod_cast hij
    nlinarith
  refine ⟨by rw [hoa, hob], by rw [hoa]; exact h2n, by rw [hoa]; exact hialt,
    by rw [hob]; exact hiblt', by rw [hoa, hob]; simpa using hianeib, ?_, ?_⟩
  · rcases Nat.lt_or_ge ia ib with hlt | hge
    · exact Or.inl (by rw [hoa, hob]; exact hspan ia ib _ h2n hlt)
    · have hlt : ib < ia := by omega
      exact Or.inr (by rw [hoa, hob]; exact hspan ib ia _ h2n hlt)
  · have hget := group_of_detect l hids a ha
    rw [hget]
    simp only [Option.getD_some]
    have hperm : (sortByStart l).Perm l := List.perm_insertionSort startLe l
    have htot : ∀ x ∈ (a :: (sortByStart l).filter
        (fun c => decide (c.id ≠ a.id) && appointmentsOverlap a c)),
        (calculateAppointmentOffset x.id (detectOverlappingAppointments l)).2 =
          (List.insertionSort groupOrder (a :: (sortByStart l).filter
            (fun c => decide (c.id ≠ a.id) && appointmentsOverlap a c))).length := by
      intro x hx
      rcases List.mem_cons.mp hx with rfl | hxf
      · rw [hoa]
      · have hxs : x ∈ sortByStart l := (List.mem_filter.mp hxf).1
        have hxprop := (List.mem_filter.mp hxf).2
        simp only [Bool.and_eq_true, decide_eq_true_eq] at hxprop
        have hxl : x ∈ l := hperm.mem_iff.mp hxs
        have hax : a ≠ x := by
          intro heq
          exact hxprop.1 (by rw [← heq])
        obtain ⟨ix, hox, -, -⟩ := offset_spec l hids x hxl
        rw [hox, ← sortedGroup_eq_of_overlap l hids hpos htrans a x ha hxl hxprop.2]
    rw [List.map_congr_left (fun x hx => by rw [htot x hx])]
    have hlen : (a :: (sortByStart l).filter
        (fun c => decide (c.id ≠ a.id) && appointmentsOverlap a c)).length =
        (List.insertionSort groupOrder (a :: (sortByStart l).filter
          (fun c => decide (c.id ≠ a.id) && appointmentsOverlap a c))).length :=
      (List.length_insertionSort groupOrder _).symm
    rw [show (fun _ : Appointment => widthPercentage
        (List.insertionSort groupOrder (a :: (sortByStart l).filter
          (fun c => decide (c.id ≠ a.id) && appointmentsOverlap a c))).length) =
      Function.const Appointment (widthPercentage
        (List.insertionSort groupOrder (a :: (sortByStart l).filter
          (fun c => decide (c.id ≠ a.id) && appointmentsOverlap a c))).length) from rfl,
      List.map_const, hlen, List.sum_replicate, widthPercentage,
      if_pos (by omega : (List.insertionSort groupOrder (a :: (sortByStart l).filter
        (fun c => decide (c.id ≠ a.id) && appointmentsOverlap a c))).length > 1),
      nsmul_eq_mul]
    have hnq : ((List.insertionSort groupOrder (a :: (sortByStart l).filter
        (fun c => decide (c.id ≠ a.id) && appointmentsOverlap a c))).length : ℚ) ≠ 0 := by
      have : (0 : ℚ) < ((List.insertionSort groupOrder (a :: (sortByStart l).filter
          (fun c => decide (c.id ≠ a.id) && appointmentsOverlap a c))).length : ℚ) := by
        exact_mod_cast Nat.lt_of_lt_of_le Nat.zero_lt_two h2n
      exact ne_of_gt this
    rw [mul_div_cancel₀ _ hnq]

/-- C5 counterexample: the chain `a = [9:00,10:00)`, `b = [9:30,10:30)`,
`c = [10:00,11:00)` (a–b and b–c overlap, a–c do not) breaks the claim: the
overlapping pair a, b get intersecting horizontal spans (`[0%, 50%)` and
`[33⅓%, 66⅔%)`), and the widths summed over the chain cluster are
`50% + 33⅓% + 50% > 100%`. -/
theorem overlap_partition_c5_counterexample :
    appointmentsOverlap ⟨1, 540, 600, 60⟩ ⟨2, 570, 630, 60⟩ = true ∧
    appointmentsOverlap ⟨2, 570, 630, 60⟩ ⟨3, 600, 660, 60⟩ = true ∧
    appointmentsOverlap ⟨1, 540, 600, 60⟩ ⟨3, 600, 660, 60⟩ = false ∧
    calculateAppointmentOffset 1 (detectOverlappingAppointments
      [⟨1, 540, 600, 60⟩, ⟨2, 570, 630, 60⟩, ⟨3, 600, 660, 60⟩]) = (0, 2) ∧
    calculateAppointmentOffset 2 (detectOverlappingAppointments
      [⟨1, 540, 600, 60⟩, ⟨2, 570, 630, 60⟩, ⟨3, 600, 660, 60⟩]) = (1, 3) ∧
    calculateAppointmentOffset 3 (detectOverlappingAppointments
      [⟨1, 540, 600, 60⟩, ⟨2, 570, 630, 60⟩, ⟨3, 600, 660, 60⟩]) = (1, 2) ∧
    leftPercentage 0 2 < leftPercentage 1 3 + widthPercentage 3 ∧
    leftPercentage 1 3 < leftPercentage 0 2 + widthPercentage 2 ∧
    100 < widthPercentage 2 + widthPercentage 3 + widthPercentage 2 := by
  refine ⟨by decide, by decide, by decide, by decide, by decide, by decide, ?_, ?_, ?_⟩
    <;> norm_num [leftPercentage, widthPercentage]

/-- C5 witness: the amended theorem applied to the two-element clique
`[9:00,9:30)`, `[9:15,9:45)`: equal lane counts and widths summing to 100%. -/
theorem overlap_partition_c5_witness :
    (calculateAppointmentOffset 1 (detectOverlappingAppointments
        [⟨1, 540, 570, 30⟩, ⟨2, 555, 585, 30⟩])).2 =
      (calculateAppointmentOffset 2 (detectOverlappingAppointments
        [⟨1, 540, 570, 30⟩, ⟨2, 555, 585, 30⟩])).2 ∧
    (((jsMapGet (detectOverlappingAppointments
        [⟨1, 540, 570, 30⟩, ⟨2, 555, 585, 30⟩]) 1).getD []).map
      (fun x => widthPercentage (calculateAppointmentOffset x.id
        (detectOverlappingAppointments
          [⟨1, 540, 570, 30⟩, ⟨2, 555, 585, 30⟩])).2)).sum = 100 :=
  ⟨(overlap_partition_c5_amended [⟨1, 540, 570, 30⟩, ⟨2, 555, 585, 30⟩]
      (by decide) (by decide) (by decide)
      ⟨1, 540, 570, 30⟩ ⟨2, 555, 585, 30⟩ (by decide) (by decide) (by decide)
      (by decide)).1,
    (overlap_partition_c5_amended [⟨1, 540, 570, 30⟩, ⟨2, 555, 585, 30⟩]
      (by decide) (by decide) (by decide)
      ⟨1, 540, 570, 30⟩ ⟨2, 555, 585, 30⟩ (by decide) (by decide) (by decide)
      (by decide)).2.2.2.2.2.2⟩
